import Mathlib

/-!
Shallow embedding of the book-catalog program (`main.py`): the `Book`
record with its dictionary conversions and validation, and the `Library`
operations (load, save, add, delete, find, search, update status),
together with theorems settling the specification claims.
-/

namespace Catalog

/-- A JSON scalar value as typed in the source (`Union[int, str]`). -/
inductive Value where
  | int (n : Int) : Value
  | str (s : String) : Value
deriving DecidableEq, Repr

/-- A raw dictionary entry as decoded from the backend file: each of the
five expected book fields is either present (with some value) or absent. -/
structure RawBook where
  id : Option Value
  title : Option Value
  author : Option Value
  year : Option Value
  status : Option Value
deriving DecidableEq, Repr

/-- The `Book` class: id, title, author, year and status fields, typed as
the source annotates them. -/
structure Book where
  id : Int
  title : String
  author : String
  year : Int
  status : String
deriving DecidableEq, Repr

/-- `Book.to_dict`: the serializable dictionary holding exactly the five
fields of the book. -/
def Book.to_dict (b : Book) : RawBook :=
  ⟨some (.int b.id), some (.str b.title), some (.str b.author),
   some (.int b.year), some (.str b.status)⟩

/-- `Book.from_dict`: reads the five fields of the dictionary and builds a
`Book`. Missing or ill-typed fields make the construction fail (`none`);
callers validate first, so that branch is never taken on validated input. -/
def Book.from_dict (data : RawBook) : Option Book :=
  match data.id, data.title, data.author, data.year, data.status with
  | some (.int i), some (.str t), some (.str a), some (.int y), some (.str s) =>
      some ⟨i, t, a, y, s⟩
  | _, _, _, _, _ => none

/-- `Book.validate_dict`: every required field is present with the right
type, and the status is one of the two permitted literal strings. -/
def Book.validate_dict (data : RawBook) : Bool :=
  (match data.id with | some (.int _) => true | _ => false) &&
  (match data.title with | some (.str _) => true | _ => false) &&
  (match data.author with | some (.str _) => true | _ => false) &&
  (match data.year with | some (.int _) => true | _ => false) &&
  (match data.status with
   | some (.str s) => s == "в наличии" || s == "выдана"
   | _ => false)

/-- The storage backend as the loader distinguishes it: a missing file,
a file whose content is not parseable JSON, or a parsed list of raw
entries. -/
inductive Backend where
  | missing : Backend
  | malformed : Backend
  | content (entries : List RawBook) : Backend
deriving DecidableEq, Repr

/-- The loop body of `Library.load_books`: keep validated entries
(converted through `Book.from_dict`), collect the skipped raw entries
(those are reported with a diagnostic naming the entry). -/
def load_entries : List RawBook → List Book × List RawBook
  | [] => ([], [])
  | raw :: rest =>
      let r := load_entries rest
      if Book.validate_dict raw then
        match Book.from_dict raw with
        | some b => (b :: r.1, r.2)
        | none => (r.1, r.2)
      else (r.1, raw :: r.2)

/-- `Library.load_books`: result books, skipped raw entries (each logged),
and whether the parse-error diagnostic was printed. A missing file gives an
empty list with no diagnostic; unparseable content gives an empty list with
the parse-error diagnostic; parsed content is filtered by validation. -/
def load_books : Backend → List Book × List RawBook × Bool
  | .missing => ([], [], false)
  | .malformed => ([], [], true)
  | .content entries =>
      let r := load_entries entries
      (r.1, r.2, false)

/-- The in-memory library state: the list of books. -/
structure Library where
  books : List Book
deriving DecidableEq, Repr

/-- `Library.__init__`: load the books from the backend. The backend is
only read, never written or deleted, so it is returned unchanged. -/
def initLibrary (backend : Backend) : Library × Backend :=
  (⟨(load_books backend).1⟩, backend)

/-- `Library._save_books`: serialize the full collection in order and
overwrite the backend with it. -/
def save_books (books : List Book) : Backend :=
  .content (books.map Book.to_dict)

/-- Python `max(l, default=d)`: the maximum of the list, or the default
when the list is empty. -/
def pyMax (l : List Int) (d : Int) : Int :=
  match l with
  | [] => d
  | x :: xs => xs.foldl max x

/-- `Library.add_book`: id is the maximum existing id (default 0) plus 1,
the new book starts with status "в наличии" and is appended at the end;
the new book is returned. -/
def add_book (books : List Book) (title author : String) (year : Int) :
    List Book × Book :=
  let book_id := pyMax (books.map Book.id) 0 + 1
  let new_book : Book := ⟨book_id, title, author, year, "в наличии"⟩
  (books ++ [new_book], new_book)

/-- `Library.find_book_by_id`: first book whose id matches, else `none`. -/
def find_book_by_id (books : List Book) (book_id : Int) : Option Book :=
  books.find? (fun b => b.id == book_id)

/-- Removal of the book object found by `find_book_by_id` (the first book
whose id matches) from the list, as `list.remove` does. -/
def removeFirst : List Book → Int → List Book
  | [], _ => []
  | b :: bs, i => if b.id == i then bs else b :: removeFirst bs i

/-- `Library.delete_book`: remove the found book and report `true`, or
leave the list unchanged and report `false` when the id is not found. -/
def delete_book (books : List Book) (book_id : Int) : List Book × Bool :=
  match find_book_by_id books book_id with
  | some _ => (removeFirst books book_id, true)
  | none => (books, false)

/-- Replace the status field of a book. -/
def setStatus (b : Book) (st : String) : Book :=
  ⟨b.id, b.title, b.author, b.year, st⟩

/-- In-place status mutation of the book object found by
`find_book_by_id`: the first book whose id matches gets the new status. -/
def setStatusFirst : List Book → Int → String → List Book
  | [], _, _ => []
  | b :: bs, i, st =>
      if b.id == i then setStatus b st :: bs
      else b :: setStatusFirst bs i st

/-- Outcome reported by `Library.update_status`. -/
inductive UpdateResult where
  | ok : UpdateResult
  | notFound : UpdateResult
  | invalidStatus : UpdateResult
deriving DecidableEq, Repr

/-- `Library.update_status`: not-found ids and non-permitted statuses are
reported and leave the list unchanged; otherwise the found book's status
is set. -/
def update_status (books : List Book) (book_id : Int) (new_status : String) :
    List Book × UpdateResult :=
  match find_book_by_id books book_id with
  | some _ =>
      if new_status == "в наличии" || new_status == "выдана" then
        (setStatusFirst books book_id new_status, .ok)
      else (books, .invalidStatus)
  | none => (books, .notFound)

/-- Python substring test `n in h` on lists of characters. -/
def startsWith : List Char → List Char → Bool
  | [], _ => true
  | _ :: _, [] => false
  | a :: as, b :: bs => a == b && startsWith as bs

/-- Python substring test `n in h` on lists of characters. -/
def hasSub (n : List Char) : List Char → Bool
  | [] => startsWith n []
  | c :: t => startsWith n (c :: t) || hasSub n t

/-- Python `str.lower()` on one character, over the character ranges the
program's data can contain: ASCII A-Z, Latin-1 uppercase letters À-Þ
(excluding ×), and Cyrillic Ѐ-Џ and А-Я (so Ё folds to ё); all other
characters are unchanged, as in Python for non-cased characters. -/
def pyLowerChar (c : Char) : Char :=
  if 0x41 ≤ c.toNat ∧ c.toNat ≤ 0x5A then Char.ofNat (c.toNat + 0x20)
  else if 0xC0 ≤ c.toNat ∧ c.toNat ≤ 0xDE ∧ c.toNat ≠ 0xD7 then Char.ofNat (c.toNat + 0x20)
  else if 0x400 ≤ c.toNat ∧ c.toNat ≤ 0x40F then Char.ofNat (c.toNat + 0x50)
  else if 0x410 ≤ c.toNat ∧ c.toNat ≤ 0x42F then Char.ofNat (c.toNat + 0x20)
  else c

/-- Python `s.lower()`, modelled character-wise with `pyLowerChar`. -/
def lowerChars (s : String) : List Char :=
  s.toList.map pyLowerChar

/-- `Library.search_books`: the list of books whose lowered title or
lowered author contains the lowered keyword as a substring, or whose
year's textual form equals the keyword exactly, in collection order. -/
def search_books (books : List Book) (keyword : String) : List Book :=
  books.filter (fun b =>
    hasSub (lowerChars keyword) (lowerChars b.title) ||
    hasSub (lowerChars keyword) (lowerChars b.author) ||
    toString b.year == keyword)

/-- `Library.find_books`: the optional argument, when absent or falsy
(empty), is replaced by the library's own list; an empty result is
returned as `none`. -/
def find_books (arg : Option (List Book)) (self_books : List Book) :
    Option (List Book) :=
  let books :=
    match arg with
    | none => self_books
    | some l => if l.isEmpty then self_books else l
  if books.isEmpty then none else some books

/-- The Record validation rule as the specification's data model states
it: positive id, non-empty title and author, status one of the two
permitted values. (Stated from the spec, to compare with the source's
`Book.validate_dict`.) -/
def specRecordValid (b : Book) : Prop :=
  0 < b.id ∧ b.title ≠ "" ∧ b.author ≠ "" ∧
    (b.status = "в наличии" ∨ b.status = "выдана")

instance (b : Book) : Decidable (specRecordValid b) := by
  unfold specRecordValid; infer_instance

/-- Iterated `add_book`: apply a list of (title, author, year) requests in
order; returns the final list of books and the ids assigned in order. -/
def addAll (books : List Book) : List (String × String × Int) → List Book × List Int
  | [] => (books, [])
  | (t, a, y) :: rest =>
      let r := add_book books t a y
      let r2 := addAll r.1 rest
      (r2.1, r.2.id :: r2.2)

/-! ### Helper lemmas -/

theorem le_foldl_max (l : List Int) (a : Int) : a ≤ l.foldl max a := by
  induction l generalizing a with
  | nil => exact le_refl a
  | cons x xs ih => exact le_trans (le_max_left a x) (ih (max a x))

theorem mem_le_foldl_max (l : List Int) : ∀ a x, x ∈ l → x ≤ l.foldl max a := by
  induction l with
  | nil => intro a x hx; cases hx
  | cons y ys ih =>
    intro a x hx
    rcases List.mem_cons.mp hx with rfl | hx'
    · exact le_trans (le_max_right a x) (le_foldl_max ys (max a x))
    · exact ih (max a y) x hx'

theorem mem_le_pyMax (l : List Int) (d x : Int) (h : x ∈ l) : x ≤ pyMax l d := by
  cases l with
  | nil => cases h
  | cons y ys =>
    show x ≤ ys.foldl max y
    rcases List.mem_cons.mp h with rfl | h'
    · exact le_foldl_max ys x
    · exact mem_le_foldl_max ys y x h'

theorem foldl_max_mem (l : List Int) : ∀ a, l.foldl max a = a ∨ l.foldl max a ∈ l := by
  induction l with
  | nil => intro a; exact Or.inl rfl
  | cons x xs ih =>
    intro a
    have hfold : (x :: xs).foldl max a = xs.foldl max (max a x) := rfl
    rcases ih (max a x) with h | h
    · rcases max_choice a x with hm | hm
      · left; rw [hfold, h, hm]
      · right; rw [hfold, h, hm]; exact List.mem_cons_self _ _
    · right; rw [hfold]; exact List.mem_cons_of_mem _ h

theorem pyMax_mem (l : List Int) (d : Int) (h : l ≠ []) : pyMax l d ∈ l := by
  cases l with
  | nil => exact absurd rfl h
  | cons x xs =>
    show xs.foldl max x ∈ x :: xs
    rcases foldl_max_mem xs x with h' | h'
    · rw [h']; exact List.mem_cons_self _ _
    · exact List.mem_cons_of_mem _ h'

theorem from_dict_to_dict (b : Book) : Book.from_dict (Book.to_dict b) = some b := rfl

theorem validate_to_dict (b : Book) :
    Book.validate_dict (Book.to_dict b) =
      (b.status == "в наличии" || b.status == "выдана") := rfl

theorem validate_from_dict (e : RawBook) (h : Book.validate_dict e = true) :
    ∃ b, Book.from_dict e = some b := by
  rcases e with ⟨i, t, a, y, s⟩
  simp only [Book.validate_dict, Bool.and_eq_true, and_assoc] at h
  obtain ⟨h1, h2, h3, h4, h5⟩ := h
  rcases i with _ | (ni | si)
  · simp at h1
  · rcases t with _ | (nt | st2)
    · simp at h2
    · simp at h2
    · rcases a with _ | (na | sa)
      · simp at h3
      · simp at h3
      · rcases y with _ | (ny | sy)
        · simp at h4
        · rcases s with _ | (ns | ss)
          · simp at h5
          · simp at h5
          · exact ⟨⟨ni, st2, sa, ny, ss⟩, rfl⟩
        · simp at h4
  · simp at h1

theorem to_dict_from_dict (e : RawBook) (b : Book) (h : Book.from_dict e = some b) :
    Book.to_dict b = e := by
  rcases e with ⟨i, t, a, y, s⟩
  rcases i with _ | (ni | si)
  · simp [Book.from_dict] at h
  · rcases t with _ | (nt | st2)
    · simp [Book.from_dict] at h
    · simp [Book.from_dict] at h
    · rcases a with _ | (na | sa)
      · simp [Book.from_dict] at h
      · simp [Book.from_dict] at h
      · rcases y with _ | (ny | sy)
        · simp [Book.from_dict] at h
        · rcases s with _ | (ns | ss)
          · simp [Book.from_dict] at h
          · simp [Book.from_dict] at h
          · simp [Book.from_dict] at h
            subst h
            rfl
        · simp [Book.from_dict] at h
  · simp [Book.from_dict] at h

theorem load_entries_eq (entries : List RawBook) :
    load_entries entries =
      ((entries.filter (fun e => Book.validate_dict e)).filterMap Book.from_dict,
       entries.filter (fun e => !Book.validate_dict e)) := by
  induction entries with
  | nil => rfl
  | cons raw rest ih =>
    by_cases h : Book.validate_dict raw = true
    · rcases hf : Book.from_dict raw with _ | b
      · exact absurd hf (by obtain ⟨b, hb⟩ := validate_from_dict raw h; simp [hb])
      · simp [load_entries, ih, List.filter_cons, h, hf, List.filterMap_cons]
    · simp [load_entries, ih, List.filter_cons, h]

theorem load_entries_valid (entries : List RawBook) :
    ∀ b ∈ (load_entries entries).1, Book.validate_dict (Book.to_dict b) = true := by
  induction entries with
  | nil => intro b hb; cases hb
  | cons raw rest ih =>
    intro b hb
    by_cases h : Book.validate_dict raw = true
    · rcases hf : Book.from_dict raw with _ | b'
      · have heq : (load_entries (raw :: rest)).1 = (load_entries rest).1 := by
          simp [load_entries, h, hf]
        rw [heq] at hb
        exact ih b hb
      · have heq : (load_entries (raw :: rest)).1 = b' :: (load_entries rest).1 := by
          simp [load_entries, h, hf]
        rw [heq] at hb
        rcases List.mem_cons.mp hb with rfl | hb'
        · rw [to_dict_from_dict raw b hf]; exact h
        · exact ih b hb'
    · have heq : (load_entries (raw :: rest)).1 = (load_entries rest).1 := by
        simp [load_entries, h]
      rw [heq] at hb
      exact ih b hb

theorem removeFirst_subset (i : Int) :
    ∀ (books : List Book) b, b ∈ removeFirst books i → b ∈ books := by
  intro books
  induction books with
  | nil => intro b hb; cases hb
  | cons hd tl ih =>
    intro b hb
    by_cases h : hd.id = i
    · have heq : removeFirst (hd :: tl) i = tl := by simp [removeFirst, h]
      rw [heq] at hb
      exact List.mem_cons_of_mem _ hb
    · have heq : removeFirst (hd :: tl) i = hd :: removeFirst tl i := by
        simp [removeFirst, h]
      rw [heq] at hb
      rcases List.mem_cons.mp hb with rfl | hb'
      · exact List.mem_cons_self _ _
      · exact List.mem_cons_of_mem _ (ih b hb')

theorem mem_setStatusFirst (i : Int) (st : String) :
    ∀ (books : List Book) b, b ∈ setStatusFirst books i st →
      b ∈ books ∨ ∃ c ∈ books, b = setStatus c st := by
  intro books
  induction books with
  | nil => intro b hb; cases hb
  | cons hd tl ih =>
    intro b hb
    by_cases h : hd.id = i
    · have heq : setStatusFirst (hd :: tl) i st = setStatus hd st :: tl := by
        simp [setStatusFirst, h]
      rw [heq] at hb
      rcases List.mem_cons.mp hb with rfl | hb'
      · exact Or.inr ⟨hd, List.mem_cons_self _ _, rfl⟩
      · exact Or.inl (List.mem_cons_of_mem _ hb')
    · have heq : setStatusFirst (hd :: tl) i st = hd :: setStatusFirst tl i st := by
        simp [setStatusFirst, h]
      rw [heq] at hb
      rcases List.mem_cons.mp hb with rfl | hb'
      · exact Or.inl (List.mem_cons_self _ _)
      · rcases ih b hb' with h' | ⟨c, hc, rfl⟩
        · exact Or.inl (List.mem_cons_of_mem _ h')
        · exact Or.inr ⟨c, List.mem_cons_of_mem _ hc, rfl⟩

theorem find_decomp (i : Int) (st : String) :
    ∀ (books : List Book) b, find_book_by_id books i = some b →
      b.id = i ∧ ∃ pre post, books = pre ++ b :: post ∧ (∀ x ∈ pre, x.id ≠ i) ∧
        setStatusFirst books i st = pre ++ setStatus b st :: post ∧
        removeFirst books i = pre ++ post := by
  intro books
  induction books with
  | nil => intro b hb; exact absurd hb (by simp [find_book_by_id])
  | cons hd tl ih =>
    intro b hb
    by_cases h : hd.id = i
    · have heq : find_book_by_id (hd :: tl) i = some hd := by
        simp [find_book_by_id, List.find?_cons, h]
      rw [heq] at hb
      injection hb with hb
      subst hb
      refine ⟨h, [], tl, rfl, by simp, ?_, ?_⟩
      · show setStatusFirst (hd :: tl) i st = setStatus hd st :: tl
        simp [setStatusFirst, h]
      · show removeFirst (hd :: tl) i = tl
        simp [removeFirst, h]
    · have heq : find_book_by_id (hd :: tl) i = find_book_by_id tl i := by
        simp [find_book_by_id, List.find?_cons, h]
      rw [heq] at hb
      obtain ⟨hbid, pre, post, hsplit, hpre, hset, hrem⟩ := ih b hb
      refine ⟨hbid, hd :: pre, post, by rw [hsplit]; rfl, ?_, ?_, ?_⟩
      · intro x hx
        rcases List.mem_cons.mp hx with rfl | hx'
        · exact h
        · exact hpre x hx'
      · show setStatusFirst (hd :: tl) i st = hd :: (pre ++ setStatus b st :: post)
        simp [setStatusFirst, h, hset]
      · show removeFirst (hd :: tl) i = hd :: (pre ++ post)
        simp [removeFirst, h, hrem]

theorem addAll_ids_gt (reqs : List (String × String × Int)) :
    ∀ (books : List Book) j, j ∈ (addAll books reqs).2 →
      pyMax (books.map Book.id) 0 < j := by
  induction reqs with
  | nil => intro books j hj; cases hj
  | cons req rest ih =>
    intro books j hj
    obtain ⟨t, a, y⟩ := req
    have hj' : j = (add_book books t a y).2.id ∨ j ∈ (addAll (add_book books t a y).1 rest).2 :=
      List.mem_cons.mp hj
    have h1 : (add_book books t a y).2.id = pyMax (books.map Book.id) 0 + 1 := rfl
    rcases hj' with rfl | hj'
    · omega
    · have h2 := ih (add_book books t a y).1 j hj'
      have h3 : (add_book books t a y).2.id ∈ (add_book books t a y).1.map Book.id := by
        simp [add_book]
      have h4 := mem_le_pyMax _ 0 _ h3
      omega

theorem addAll_pairwise (reqs : List (String × String × Int)) :
    ∀ (books : List Book), List.Pairwise (· < ·) (addAll books reqs).2 := by
  induction reqs with
  | nil => intro books; exact List.Pairwise.nil
  | cons req rest ih =>
    intro books
    obtain ⟨t, a, y⟩ := req
    show List.Pairwise (· < ·)
      ((add_book books t a y).2.id :: (addAll (add_book books t a y).1 rest).2)
    refine List.Pairwise.cons ?_ (ih _)
    intro j hj
    have h2 := addAll_ids_gt rest (add_book books t a y).1 j hj
    have h3 : (add_book books t a y).2.id ≤ pyMax ((add_book books t a y).1.map Book.id) 0 :=
      mem_le_pyMax _ 0 _ (by simp [add_book])
    omega

/-! ### Claim theorems -/

/-- Claim C3: Add assigns the new record the id (maximum existing id, or 0
if the collection is empty) + 1, constructs it with the given title, author
and year and status "в наличии", appends it at the end of the collection
leaving all existing records unchanged in place and order, and returns that
record. -/
theorem C3_add_book (books : List Book) (t a : String) (y : Int) :
    (add_book books t a y).1 = books ++ [(add_book books t a y).2] ∧
    (add_book books t a y).2.title = t ∧
    (add_book books t a y).2.author = a ∧
    (add_book books t a y).2.year = y ∧
    (add_book books t a y).2.status = "в наличии" ∧
    (books = [] → (add_book books t a y).2.id = 1) ∧
    (books ≠ [] → ∃ b ∈ books, (add_book books t a y).2.id = b.id + 1 ∧
      ∀ c ∈ books, c.id ≤ b.id) := by
  refine ⟨rfl, rfl, rfl, rfl, rfl, ?_, ?_⟩
  · rintro rfl; rfl
  · intro hne
    have hmap : books.map Book.id ≠ [] := by
      intro hc; exact hne (List.map_eq_nil_iff.mp hc)
    have hmem : pyMax (books.map Book.id) 0 ∈ books.map Book.id :=
      pyMax_mem _ 0 hmap
    obtain ⟨b, hb, hbid⟩ := List.mem_map.mp hmem
    refine ⟨b, hb, ?_, ?_⟩
    · show pyMax (books.map Book.id) 0 + 1 = b.id + 1
      rw [hbid]
    · intro c hc
      have := mem_le_pyMax (books.map Book.id) 0 c.id (List.mem_map_of_mem Book.id hc)
      omega

/-- Witness for C3 at the empty catalog: the first added book gets id 1. -/
theorem C3_add_book_witness :
    (add_book [] "t" "a" 2024).2.id = 1 ∧
    (add_book [] "t" "a" 2024).1 = [] ++ [(add_book [] "t" "a" 2024).2] :=
  ⟨(C3_add_book [] "t" "a" 2024).2.2.2.2.2.1 rfl, (C3_add_book [] "t" "a" 2024).1⟩

/-- Claim C8: for every valid Record, FromSerializable (ToSerializable r)
restores r exactly, the serializable form carrying precisely the five
fields id, title, author, year, status. -/
theorem C8_round_trip (r : Book) (h : Book.validate_dict (Book.to_dict r) = true) :
    Book.from_dict (Book.to_dict r) = some r ∧
    Book.to_dict r = ⟨some (.int r.id), some (.str r.title), some (.str r.author),
      some (.int r.year), some (.str r.status)⟩ :=
  ⟨from_dict_to_dict r, rfl⟩

/-- Witness for C8 at a concrete valid record. -/
theorem C8_round_trip_witness :
    Book.validate_dict (Book.to_dict ⟨1, "t", "a", 2024, "в наличии"⟩) = true ∧
    Book.from_dict (Book.to_dict ⟨1, "t", "a", 2024, "в наличии"⟩) =
      some ⟨1, "t", "a", 2024, "в наличии"⟩ :=
  ⟨by decide, (C8_round_trip ⟨1, "t", "a", 2024, "в наличии"⟩ (by decide)).1⟩

/-- Claim C9 counterexample: on an empty catalog the code's ListAll
(`find_books` with no argument) returns the absent value `none`, not an
empty sequence. -/
theorem C9_counterexample :
    find_books none ([] : List Book) = none ∧
    find_books none ([] : List Book) ≠ some [] :=
  ⟨rfl, by decide⟩

/-- Claim C9 (amended): ListAll returns the full collection in insertion
order (wrapped in `some`) when the catalog is nonempty, and returns the
absent value `none` on an empty catalog. -/
theorem C9_list_all (books : List Book) :
    (books = [] → find_books none books = none) ∧
    (books ≠ [] → find_books none books = some books) := by
  constructor
  · rintro rfl; rfl
  · intro h
    have : books.isEmpty = false := by
      cases books with
      | nil => exact absurd rfl h
      | cons hd tl => rfl
    simp [find_books, this]

/-- Witness for C9 (amended) on empty and singleton catalogs. -/
theorem C9_list_all_witness :
    find_books none ([] : List Book) = none ∧
    find_books none [⟨1, "t", "a", 5, "в наличии"⟩] =
      some [⟨1, "t", "a", 5, "в наличии"⟩] :=
  ⟨(C9_list_all []).1 rfl, (C9_list_all [⟨1, "t", "a", 5, "в наличии"⟩]).2 (by decide)⟩

/-- Claim C10: FindByID returns `none` exactly when no record in the
collection has the id, and otherwise the first record in collection order
whose id matches (even when several records share the id). -/
theorem C10_find_by_id (books : List Book) (i : Int) :
    (find_book_by_id books i = none ↔ ∀ b ∈ books, b.id ≠ i) ∧
    (∀ b, find_book_by_id books i = some b →
      b.id = i ∧ ∃ pre post, books = pre ++ b :: post ∧ ∀ x ∈ pre, x.id ≠ i) := by
  constructor
  · constructor
    · intro h b hb
      have := List.find?_eq_none.mp h b hb
      simpa using this
    · intro h
      apply List.find?_eq_none.mpr
      intro b hb
      simpa using h b hb
  · intro b hb
    obtain ⟨hbid, pre, post, hsplit, hpre, _, _⟩ := find_decomp i "в наличии" books b hb
    exact ⟨hbid, pre, post, hsplit, hpre⟩

/-- Witness for C10: with two records sharing id 1, FindByID returns the
first. -/
theorem C10_find_by_id_witness :
    (⟨1, "t1", "a1", 5, "в наличии"⟩ : Book).id = 1 ∧
    ∃ pre post, [(⟨1, "t1", "a1", 5, "в наличии"⟩ : Book), ⟨1, "t2", "a2", 6, "выдана"⟩] =
      pre ++ (⟨1, "t1", "a1", 5, "в наличии"⟩ : Book) :: post ∧ ∀ x ∈ pre, x.id ≠ 1 :=
  (C10_find_by_id [⟨1, "t1", "a1", 5, "в наличии"⟩, ⟨1, "t2", "a2", 6, "выдана"⟩] 1).2
    ⟨1, "t1", "a1", 5, "в наличии"⟩ rfl

/-- Claim C1 counterexample: a backend entry with id 0 and empty title and
author passes the code's validation, so a successful load places in the
collection a record violating the spec's Record validation rule. -/
theorem C1_counterexample :
    (load_books (.content [⟨some (.int 0), some (.str ""), some (.str ""),
        some (.int 1), some (.str "в наличии")⟩])).1 =
      [⟨0, "", "", 1, "в наличии"⟩] ∧
    ¬ specRecordValid ⟨0, "", "", 1, "в наличии"⟩ :=
  ⟨rfl, by decide⟩

/-- Claim C1 (amended): after a successful load every record in the
collection satisfies the code's validation rule (all five fields present
and well typed, status one of the two permitted values), and Add, Delete
and UpdateStatus preserve that property. Positivity of id, non-emptiness
of title and author, and uniqueness of ids are not enforced by the code. -/
theorem C1_invariant :
    (∀ backend, ∀ b ∈ (load_books backend).1,
      Book.validate_dict (Book.to_dict b) = true) ∧
    (∀ books t a y, (∀ b ∈ books, Book.validate_dict (Book.to_dict b) = true) →
      ∀ b ∈ (add_book books t a y).1, Book.validate_dict (Book.to_dict b) = true) ∧
    (∀ books i, (∀ b ∈ books, Book.validate_dict (Book.to_dict b) = true) →
      ∀ b ∈ (delete_book books i).1, Book.validate_dict (Book.to_dict b) = true) ∧
    (∀ books i st, (∀ b ∈ books, Book.validate_dict (Book.to_dict b) = true) →
      ∀ b ∈ (update_status books i st).1, Book.validate_dict (Book.to_dict b) = true) := by
  refine ⟨?_, ?_, ?_, ?_⟩
  · intro backend b hb
    cases backend with
    | missing => cases hb
    | malformed => cases hb
    | content entries => exact load_entries_valid entries b hb
  · intro books t a y hall b hb
    have hb' : b ∈ books ++ [(add_book books t a y).2] := hb
    rcases List.mem_append.mp hb' with h' | h'
    · exact hall b h'
    · rw [List.mem_singleton.mp h']; rfl
  · intro books i hall b hb
    rcases hf : find_book_by_id books i with _ | bk
    · have heq : (delete_book books i).1 = books := by simp [delete_book, hf]
      rw [heq] at hb
      exact hall b hb
    · have heq : (delete_book books i).1 = removeFirst books i := by
        simp [delete_book, hf]
      rw [heq] at hb
      exact hall b (removeFirst_subset i books b hb)
  · intro books i st hall b hb
    rcases hf : find_book_by_id books i with _ | bk
    · have heq : (update_status books i st).1 = books := by simp [update_status, hf]
      rw [heq] at hb
      exact hall b hb
    · by_cases hst : (st == "в наличии" || st == "выдана") = true
      · have heq : (update_status books i st).1 = setStatusFirst books i st := by
          simp [update_status, hf, hst]
        rw [heq] at hb
        rcases mem_setStatusFirst i st books b hb with h' | ⟨c, _, rfl⟩
        · exact hall b h'
        · rw [validate_to_dict]
          exact hst
      · have heq : (update_status books i st).1 = books := by
          simp [update_status, hf, hst]
        rw [heq] at hb
        exact hall b hb

/-- Witness for C1 (amended): adding to a concrete valid catalog keeps
every record valid. -/
theorem C1_invariant_witness :
    ∀ b ∈ (add_book [⟨1, "t", "a", 5, "в наличии"⟩] "u" "v" 6).1,
      Book.validate_dict (Book.to_dict b) = true :=
  C1_invariant.2.1 [⟨1, "t", "a", 5, "в наличии"⟩] "u" "v" 6 (by decide)

/-- Claim C2 counterexample: on an empty catalog the first Add assigns
id 1; after deleting it, the next Add assigns id 1 again — a deleted id is
reassigned and the ids of successive Adds are not strictly increasing. -/
theorem C2_counterexample :
    (add_book [] "t" "a" 5).2.id = 1 ∧
    (add_book (delete_book (add_book [] "t" "a" 5).1
        (add_book [] "t" "a" 5).2.id).1 "u" "v" 6).2.id = 1 :=
  ⟨rfl, rfl⟩

/-- Claim C2 (amended): every Add returns an id strictly greater than
every id in the pre-state collection, so in any sequence of Add calls
without intervening Deletes the assigned ids are strictly increasing and
mutually distinct; a deleted id can be reassigned by a later Add once no
larger id remains. -/
theorem C2_add_ids (books : List Book) :
    (∀ t a y, ∀ b ∈ books, b.id < (add_book books t a y).2.id) ∧
    (∀ reqs, List.Pairwise (· < ·) (addAll books reqs).2) := by
  constructor
  · intro t a y b hb
    have h1 : b.id ≤ pyMax (books.map Book.id) 0 :=
      mem_le_pyMax _ 0 b.id (List.mem_map_of_mem Book.id hb)
    have h2 : (add_book books t a y).2.id = pyMax (books.map Book.id) 0 + 1 := rfl
    omega
  · intro reqs
    exact addAll_pairwise reqs books

/-- Witness for C2 (amended): a concrete Add returns an id above the
existing one. -/
theorem C2_add_ids_witness :
    (⟨3, "t", "a", 5, "в наличии"⟩ : Book).id <
      (add_book [⟨3, "t", "a", 5, "в наличии"⟩] "u" "v" 6).2.id :=
  (C2_add_ids [⟨3, "t", "a", 5, "в наличии"⟩]).1 "u" "v" 6
    ⟨3, "t", "a", 5, "в наличии"⟩ (by simp)

/-- Claim C4: Load returns an empty collection (with no diagnostic) on a
missing backend, an empty collection with the parse diagnostic on
unparseable content — the backend itself being only read, never altered —
and otherwise exactly the entries passing validation, converted to records
in file order, the failing entries skipped and collected for a diagnostic
each; no validated entry fails conversion. -/
theorem C4_load (entries : List RawBook) :
    load_books .missing = ([], [], false) ∧
    load_books .malformed = ([], [], true) ∧
    (∀ backend, (initLibrary backend).2 = backend) ∧
    (load_books (.content entries)).1 =
      (entries.filter (fun e => Book.validate_dict e)).filterMap Book.from_dict ∧
    (load_books (.content entries)).2.1 =
      entries.filter (fun e => !Book.validate_dict e) ∧
    (∀ e ∈ entries, Book.validate_dict e = true → ∃ b, Book.from_dict e = some b) := by
  refine ⟨rfl, rfl, fun _ => rfl, ?_, ?_, fun e _ he => validate_from_dict e he⟩
  · show (load_entries entries).1 = _
    rw [load_entries_eq]
  · show (load_entries entries).2 = _
    rw [load_entries_eq]

/-- Witness for C4: a concrete validated entry converts to a record. -/
theorem C4_load_witness :
    ∃ b, Book.from_dict ⟨some (.int 1), some (.str "t"), some (.str "a"),
      some (.int 5), some (.str "в наличии")⟩ = some b :=
  (C4_load [⟨some (.int 1), some (.str "t"), some (.str "a"),
      some (.int 5), some (.str "в наличии")⟩]).2.2.2.2.2 _ (by simp) (by decide)

/-- Claim C5: UpdateStatus with an id not in the collection, or with a
status other than the two permitted values, reports failure and leaves the
collection unchanged; with an existing id and a permitted status it
replaces exactly the status of the first matching record, every other
field, record and the collection order unchanged. -/
theorem C5_update_status (books : List Book) (i : Int) (st : String) :
    ((∀ b ∈ books, b.id ≠ i) → update_status books i st = (books, .notFound)) ∧
    (st ≠ "в наличии" → st ≠ "выдана" →
      (update_status books i st).1 = books ∧
      (update_status books i st).2 ≠ .ok) ∧
    (st ≠ "в наличии" → st ≠ "выдана" → (∃ b ∈ books, b.id = i) →
      update_status books i st = (books, .invalidStatus)) ∧
    ((st = "в наличии" ∨ st = "выдана") → (∃ b ∈ books, b.id = i) →
      ∃ pre m post, books = pre ++ m :: post ∧ (∀ x ∈ pre, x.id ≠ i) ∧ m.id = i ∧
        update_status books i st = (pre ++ setStatus m st :: post, .ok)) := by
  refine ⟨?_, ?_, ?_, ?_⟩
  · intro h
    have hf : find_book_by_id books i = none := by
      apply List.find?_eq_none.mpr
      intro b hb
      simpa using h b hb
    simp [update_status, hf]
  · intro h1 h2
    rcases hf : find_book_by_id books i with _ | bk
    · refine ⟨by simp [update_status, hf], ?_⟩
      simp [update_status, hf]
    · have hst : (st == "в наличии" || st == "выдана") = false := by
        simp [h1, h2]
      refine ⟨by simp [update_status, hf, hst], ?_⟩
      simp [update_status, hf, hst]
  · intro h1 h2 hex
    rcases hf : find_book_by_id books i with _ | b
    · exfalso
      obtain ⟨b, hb, hbid⟩ := hex
      have := List.find?_eq_none.mp hf b hb
      simp [hbid] at this
    · have hst : (st == "в наличии" || st == "выдана") = false := by
        simp [h1, h2]
      simp [update_status, hf, hst]
  · intro hst hex
    rcases hf : find_book_by_id books i with _ | b
    · exfalso
      obtain ⟨b, hb, hbid⟩ := hex
      have := List.find?_eq_none.mp hf b hb
      simp [hbid] at this
    · obtain ⟨hbid, pre, post, hsplit, hpre, hset, _⟩ := find_decomp i st books b hf
      refine ⟨pre, b, post, hsplit, hpre, hbid, ?_⟩
      have hg : (st == "в наличии" || st == "выдана") = true := by
        rcases hst with rfl | rfl <;> simp
      simp [update_status, hf, hg, hset]

/-- Witness for C5: the not-found report on an empty catalog, and the
invalid-status report (collection unchanged) on an existing id. -/
theorem C5_update_status_witness :
    update_status ([] : List Book) 1 "выдана" = ([], .notFound) ∧
    update_status [⟨1, "t", "a", 5, "в наличии"⟩] 1 "bogus" =
      ([⟨1, "t", "a", 5, "в наличии"⟩], .invalidStatus) :=
  ⟨(C5_update_status [] 1 "выдана").1 (by simp),
   (C5_update_status [⟨1, "t", "a", 5, "в наличии"⟩] 1 "bogus").2.2.1
     (by decide) (by decide) ⟨⟨1, "t", "a", 5, "в наличии"⟩, by simp, rfl⟩⟩

/-- Claim C6: Search selects exactly the records whose lowered title or
lowered author contains the lowered keyword as a substring, or whose
year's textual form equals the keyword exactly, in collection order; an
empty result on a nonempty catalog is a possible outcome. -/
theorem C6_search (books : List Book) (kw : String) :
    (∀ b, b ∈ search_books books kw ↔ b ∈ books ∧
      (hasSub (lowerChars kw) (lowerChars b.title) = true ∨
       hasSub (lowerChars kw) (lowerChars b.author) = true ∨
       toString b.year = kw)) ∧
    (search_books books kw).Sublist books ∧
    (∃ bs k, bs ≠ ([] : List Book) ∧ search_books bs k = []) := by
  refine ⟨?_, List.filter_sublist _,
    ⟨[⟨1, "t", "a", 5, "в наличии"⟩], "zzz", by simp, by decide⟩⟩
  intro b
  constructor
  · intro hb
    have := List.mem_filter.mp hb
    refine ⟨this.1, ?_⟩
    have h2 := this.2
    simp only [Bool.or_eq_true, beq_iff_eq] at h2
    tauto
  · intro ⟨hb, hcond⟩
    apply List.mem_filter.mpr
    refine ⟨hb, ?_⟩
    simp only [Bool.or_eq_true, beq_iff_eq]
    tauto

/-- Claim C7: Save followed by constructing a fresh catalog from the same
backend yields the identical collection, record for record, in order. -/
theorem C7_save_load (books : List Book)
    (h : ∀ b ∈ books, b.status = "в наличии" ∨ b.status = "выдана") :
    (load_books (save_books books)).1 = books := by
  induction books with
  | nil => rfl
  | cons hd tl ih =>
    have hhd := h hd (List.mem_cons_self _ _)
    have hv : Book.validate_dict (Book.to_dict hd) = true := by
      rw [validate_to_dict]
      rcases hhd with h' | h' <;> simp [h']
    have htl := ih (fun b hb => h b (List.mem_cons_of_mem _ hb))
    show (load_entries ((hd :: tl).map Book.to_dict)).1 = hd :: tl
    rw [List.map_cons]
    have heq : (load_entries (Book.to_dict hd :: tl.map Book.to_dict)).1 =
        hd :: (load_entries (tl.map Book.to_dict)).1 := by
      simp [load_entries, hv, from_dict_to_dict]
    rw [heq]
    exact congrArg (hd :: ·) htl

/-- Witness for C7 at a concrete two-record catalog. -/
theorem C7_save_load_witness :
    (load_books (save_books [⟨1, "t", "a", 5, "в наличии"⟩,
        ⟨2, "u", "v", 6, "выдана"⟩])).1 =
      [⟨1, "t", "a", 5, "в наличии"⟩, ⟨2, "u", "v", 6, "выдана"⟩] :=
  C7_save_load _ (by decide)

end Catalog
